import Mathlib

/-!
Verification of the `dev_events` data-access layer: the Event / Booking
validation-and-normalization pipeline (`event.model`, `booking.model`) and the
cached database-connection helper (`src/lib/mongodb.ts`).

JavaScript strings are modelled as `List Char`.  The platform facilities the
source delegates to (`String.prototype.trim`, `toLowerCase`, the `Date`
constructor's ISO-format parser, `Date.prototype.toISOString`) are embedded
following the ECMAScript specification; each such definition carries a doc
comment stating the modelled input class.
-/

namespace DevEvents

/-- JavaScript strings, modelled as lists of characters. -/
abbrev Str := List Char

/-- The ECMAScript `WhiteSpace` and `LineTerminator` character set used by
`String.prototype.trim` and by the `\s` regex class: TAB, LF, VT, FF, CR,
SP, NBSP, and the Unicode space separators and line terminators. -/
def jsIsWhitespace (c : Char) : Bool :=
  c.toNat == 9 || c.toNat == 10 || c.toNat == 11 || c.toNat == 12 ||
  c.toNat == 13 || c.toNat == 32 || c.toNat == 160 || c.toNat == 0x1680 ||
  (decide (0x2000 ≤ c.toNat) && decide (c.toNat ≤ 0x200A)) ||
  c.toNat == 0x2028 || c.toNat == 0x2029 || c.toNat == 0x202F ||
  c.toNat == 0x205F || c.toNat == 0x3000 || c.toNat == 0xFEFF

/-- `String.prototype.trimStart`. -/
def jsTrimLeft (s : Str) : Str := s.dropWhile jsIsWhitespace

/-- `String.prototype.trimEnd`. -/
def jsTrimRight (s : Str) : Str := (s.reverse.dropWhile jsIsWhitespace).reverse

/-- `String.prototype.trim`: strip leading and trailing JS whitespace. -/
def jsTrim (s : Str) : Str := jsTrimRight (jsTrimLeft s)

/-- `String.prototype.toLowerCase`, restricted to the ASCII simple case
mappings (the only ones that can survive `slugify`'s `[^a-z0-9\s-]` strip or
matter to the email shape check): codes 65–90 shift to 97–122. -/
def jsToLower (c : Char) : Char :=
  if 65 ≤ c.toNat ∧ c.toNat ≤ 90 then Char.ofNat (c.toNat + 32) else c

/-- Lowercase an entire string. -/
def jsToLowerStr (s : Str) : Str := s.map jsToLower

/-- Characters kept by `slugify`'s `.replace(/[^a-z0-9\s-]/g, '')`:
lowercase ASCII letters, digits, JS whitespace, and the dash. -/
def isSlugKept (c : Char) : Bool :=
  (decide ('a' ≤ c) && decide (c ≤ 'z')) ||
  (decide ('0' ≤ c) && decide (c ≤ '9')) ||
  jsIsWhitespace c || c == '-'

/-- `.replace(/X+/g, c)` for a character class `p`: each maximal run of
characters satisfying `p` is replaced by the single character `r`.  The
boolean argument records whether the previous character was part of a run. -/
def replaceRuns (p : Char → Bool) (r : Char) : Bool → Str → Str
  | _, [] => []
  | inRun, c :: cs =>
    if p c then
      if inRun then replaceRuns p r true cs
      else r :: replaceRuns p r true cs
    else c :: replaceRuns p r false cs

/-- `slugify` from `event.model`: lowercase, trim, strip characters outside
`[a-z0-9\s-]`, replace each whitespace run with a dash, collapse dash runs. -/
def slugify (value : Str) : Str :=
  replaceRuns (fun c => c == '-') '-' false
    (replaceRuns jsIsWhitespace '-' false
      ((jsTrim (jsToLowerStr value)).filter isSlugKept))

/-! ### Fixed-width decimal printing and reading

`Date.prototype.toISOString` prints each component zero-padded to a fixed
width; the ISO parser reads fixed-width digit groups.  `padNum w n` prints
`n < 10 ^ w` using exactly `w` digits, most significant first. -/

/-- Zero-padded fixed-width decimal printing (most significant digit first). -/
def padNum : Nat → Nat → Str
  | 0, _ => []
  | w + 1, n => Nat.digitChar (n / 10 ^ w) :: padNum w (n % 10 ^ w)

/-- Read exactly `w` decimal digits, returning their value and the rest. -/
def readNum : Nat → Str → Option (Nat × Str)
  | 0, cs => some (0, cs)
  | _ + 1, [] => none
  | w + 1, c :: cs =>
    if c.isDigit then
      match readNum w cs with
      | some (v, r) => some ((c.toNat - 48) * 10 ^ w + v, r)
      | none => none
    else none

theorem digitChar_isDigit {d : Nat} (h : d < 10) :
    (Nat.digitChar d).isDigit = true ∧ (Nat.digitChar d).toNat - 48 = d := by
  interval_cases d <;> exact ⟨rfl, rfl⟩

theorem digitChar_not_ws {d : Nat} (h : d < 10) :
    jsIsWhitespace (Nat.digitChar d) = false := by
  interval_cases d <;> rfl

theorem div_pow_lt_ten {w n : Nat} (h : n < 10 ^ (w + 1)) : n / 10 ^ w < 10 := by
  rw [Nat.div_lt_iff_lt_mul (Nat.pos_pow_of_pos w (by norm_num))]
  calc n < 10 ^ (w + 1) := h
    _ = 10 * 10 ^ w := by ring

/-- Reading back a fixed-width printed number recovers it exactly. -/
theorem readNum_padNum (w : Nat) (n : Nat) (rest : Str) (h : n < 10 ^ w) :
    readNum w (padNum w n ++ rest) = some (n, rest) := by
  induction w generalizing n rest with
  | zero =>
    interval_cases n
    rfl
  | succ w ih =>
    obtain ⟨hdig, hval⟩ := digitChar_isDigit (div_pow_lt_ten h)
    have hm : n % 10 ^ w < 10 ^ w := Nat.mod_lt _ (Nat.pos_pow_of_pos w (by norm_num))
    have key : n / 10 ^ w * 10 ^ w + n % 10 ^ w = n := by
      rw [Nat.mul_comm]
      exact Nat.div_add_mod n (10 ^ w)
    simp only [padNum, readNum, List.cons_append, List.append_eq, hdig, if_true]
    rw [ih _ rest hm]
    simp [hval, key]

/-- `padNum` never produces whitespace (its output is digit characters). -/
theorem padNum_not_whitespace (w n : Nat) (h : n < 10 ^ w) :
    ∀ c ∈ padNum w n, jsIsWhitespace c = false := by
  induction w generalizing n with
  | zero => intro c hc; simp [padNum] at hc
  | succ w ih =>
    intro c hc
    have hm : n % 10 ^ w < 10 ^ w := Nat.mod_lt _ (Nat.pos_pow_of_pos w (by norm_num))
    simp only [padNum, List.mem_cons] at hc
    rcases hc with hc | hc
    · subst hc
      exact digitChar_not_ws (div_pow_lt_ten h)
    · exact ih _ hm c hc

/-! ### The ECMAScript calendar

The source delegates date handling to the JS `Date` built-ins.  These are
embedded following the ECMAScript specification (Date Objects, "Day Number
and Time within Day", "Year Number", "Month Number", "Date Number"): a time
value is an integer count of milliseconds since the epoch, and the civil
decomposition is defined by `DayFromYear` and the month tables.  In Lean,
`Int` division by a positive constant is floor division, matching the spec's
`floor`. -/

/-- ES `DaysInYear(y) = 366`: the Gregorian leap-year rule. -/
def isLeap (y : Int) : Bool :=
  (y % 4 == 0 && y % 100 != 0) || y % 400 == 0

/-- ES `DayFromYear(y)`: the day number of 1 January of year `y`. -/
def dayFromYear (y : Int) : Int :=
  365 * (y - 1970) + (y - 1969) / 4 - (y - 1901) / 100 + (y - 1601) / 400

/-- ES `YearFromTime` at the level of day numbers: the unique `y` with
`dayFromYear y ≤ d < dayFromYear (y + 1)`, computed by a floor-division
guess followed by bounded corrections. -/
def yearFromDay (d : Int) : Int :=
  let y1 := 400 * d / 146097 + 1970
  let y2 := if d < dayFromYear y1 then y1 - 1 else y1
  let y3 := if d < dayFromYear y2 then y2 - 1 else y2
  let y4 := if dayFromYear (y3 + 1) ≤ d then y3 + 1 else y3
  if dayFromYear (y4 + 1) ≤ d then y4 + 1 else y4

/-- Cumulative days before 1-based month `m` (`L` = leap year). -/
def monthStart (L : Bool) (m : Int) : Int :=
  let i : Int := if L then 1 else 0
  if m = 1 then 0 else if m = 2 then 31 else if m = 3 then 59 + i
  else if m = 4 then 90 + i else if m = 5 then 120 + i else if m = 6 then 151 + i
  else if m = 7 then 181 + i else if m = 8 then 212 + i else if m = 9 then 243 + i
  else if m = 10 then 273 + i else if m = 11 then 304 + i else 334 + i

/-- Days in 1-based month `m` (`L` = leap year). -/
def daysInMonth (L : Bool) (m : Int) : Int :=
  if m = 2 then (if L then 29 else 28)
  else if m = 4 ∨ m = 6 ∨ m = 9 ∨ m = 11 then 30 else 31

/-- ES `MonthFromTime` expressed on the day within the year (0-based),
returning a 1-based month. -/
def monthFromDwy (L : Bool) (dwy : Int) : Int :=
  let i : Int := if L then 1 else 0
  if dwy < 31 then 1 else if dwy < 59 + i then 2 else if dwy < 90 + i then 3
  else if dwy < 120 + i then 4 else if dwy < 151 + i then 5 else if dwy < 181 + i then 6
  else if dwy < 212 + i then 7 else if dwy < 243 + i then 8 else if dwy < 273 + i then 9
  else if dwy < 304 + i then 10 else if dwy < 334 + i then 11 else 12

/-- ES `TimeClip` restated for integral time values: valid time values span
at most ±8.64e15 milliseconds; outside that the `Date` is invalid. -/
def timeClip (t : Int) : Option Int :=
  if -8640000000000000 ≤ t ∧ t ≤ 8640000000000000 then some t else none

/-! ### The `Date` ISO-format parser

Models `new Date(string)` on the class of ECMAScript Date Time String Format
inputs (`YYYY[-MM[-DD]][THH:mm[:ss[.sss]][Z|±HH:mm]]`, including expanded
`±YYYYYY` years), the format class the pipeline produces and its spec
discusses.  Date-only forms are UTC; date-time forms without an offset are
interpreted in the local zone, modelled by a fixed offset `tz` in minutes
(local time = UTC + `tz` minutes). -/

/-- Parse the year production: `YYYY`, or the expanded `+YYYYYY` / `-YYYYYY`
(with `-000000` rejected, per the spec). -/
def parseYear : Str → Option (Int × Str)
  | [] => none
  | c :: r =>
    if c = '+' then (readNum 6 r).map fun p => ((p.1 : Int), p.2)
    else if c = '-' then (readNum 6 r).bind fun p =>
      if p.1 = 0 then none else some ((-(p.1 : Int)), p.2)
    else (readNum 4 (c :: r)).map fun p => ((p.1 : Int), p.2)

/-- Read a 1–3 digit fraction after the decimal point, scaled to
milliseconds (a fourth digit is out of the modelled class and rejected). -/
def readFrac : Str → Option (Nat × Str)
  | [] => none
  | c1 :: r1 =>
    if c1.isDigit then
      match r1 with
      | c2 :: r2 =>
        if c2.isDigit then
          match r2 with
          | c3 :: r3 =>
            if c3.isDigit then
              match r3 with
              | c4 :: _ =>
                if c4.isDigit then none
                else some ((c1.toNat - 48) * 100 + (c2.toNat - 48) * 10 + (c3.toNat - 48), r3)
              | [] => some ((c1.toNat - 48) * 100 + (c2.toNat - 48) * 10 + (c3.toNat - 48), r3)
            else some ((c1.toNat - 48) * 100 + (c2.toNat - 48) * 10, c3 :: r3)
          | [] => some ((c1.toNat - 48) * 100 + (c2.toNat - 48) * 10, [])
        else some ((c1.toNat - 48) * 100, c2 :: r2)
      | [] => some ((c1.toNat - 48) * 100, [])
    else none

/-- Parse `HH:mm[:ss[.sss]]`, returning the milliseconds within the day and
the rest of the string.  `24` is accepted as the hour only when the rest of
the time is zero, per the spec. -/
def parseTimeOfDay (cs : Str) : Option (Nat × Str) :=
  match readNum 2 cs with
  | none => none
  | some (hh, r1) =>
    match r1 with
    | ':' :: r2 =>
      match readNum 2 r2 with
      | none => none
      | some (mm, r3) =>
        let finish := fun (ss ms : Nat) (r : Str) =>
          if (hh ≤ 23 ∧ mm ≤ 59 ∧ ss ≤ 59) ∨ (hh = 24 ∧ mm = 0 ∧ ss = 0 ∧ ms = 0) then
            some (hh * 3600000 + mm * 60000 + ss * 1000 + ms, r)
          else none
        match r3 with
        | ':' :: r4 =>
          match readNum 2 r4 with
          | none => none
          | some (ss, r5) =>
            match r5 with
            | '.' :: r6 =>
              match readFrac r6 with
              | none => none
              | some (ms, r7) => finish ss ms r7
            | _ => finish ss 0 r5
        | _ => finish 0 0 r3
    | _ => none

/-- Parse the `HH:mm` of a numeric UTC offset (must end the string),
returning the offset magnitude in minutes. -/
def parseOffsetHM (cs : Str) : Option Int :=
  match readNum 2 cs with
  | some (hh, ':' :: r2) =>
    match readNum 2 r2 with
    | some (mm, []) => if hh ≤ 23 ∧ mm ≤ 59 then some ((hh : Int) * 60 + mm) else none
    | _ => none
  | _ => none

/-- Given the parsed day number, parse the optional time-of-day and offset
and produce the clipped time value. -/
def finishDT (tz : Int) (day : Int) (rest : Str) : Option Int :=
  match rest with
  | [] => timeClip (day * 86400000)
  | 'T' :: r =>
    match parseTimeOfDay r with
    | none => none
    | some (msd, r2) =>
      match r2 with
      | [] => timeClip (day * 86400000 + (msd : Int) - tz * 60000)
      | ['Z'] => timeClip (day * 86400000 + (msd : Int))
      | '+' :: r3 => (parseOffsetHM r3).bind fun off =>
          timeClip (day * 86400000 + (msd : Int) - off * 60000)
      | '-' :: r3 => (parseOffsetHM r3).bind fun off =>
          timeClip (day * 86400000 + (msd : Int) + off * 60000)
      | _ => none
  | _ => none

/-- Parse the optional `-MM[-DD]` after the year, then the optional time. -/
def parseMonthDT (tz : Int) (y : Int) : Str → Option Int
  | '-' :: r2 =>
    match readNum 2 r2 with
    | none => none
    | some (m, r3) =>
      if 1 ≤ m ∧ m ≤ 12 then
        match r3 with
        | '-' :: r4 =>
          match readNum 2 r4 with
          | none => none
          | some (dd, r5) =>
            if 1 ≤ dd ∧ (dd : Int) ≤ daysInMonth (isLeap y) (m : Int) then
              finishDT tz (dayFromYear y + monthStart (isLeap y) (m : Int) + (dd : Int) - 1) r5
            else none
        | r3' => finishDT tz (dayFromYear y + monthStart (isLeap y) (m : Int)) r3'
      else none
  | r1 => finishDT tz (dayFromYear y) r1

/-- `new Date(s)` on ISO Date Time String Format input: returns the time
value (milliseconds since epoch), or `none` for an invalid date.  `tz` is
the local-zone offset in minutes used for date-times without an offset. -/
def jsDateParse (tz : Int) (s : Str) : Option Int :=
  match parseYear s with
  | none => none
  | some (y, r1) => parseMonthDT tz y r1

/-- The `-MM-DDTHH:mm:ss.sssZ` part of `toISOString`'s output (everything
after the year digits). -/
def isoTail (t : Int) : Str :=
  let d := t / 86400000
  let msd := (t % 86400000).toNat
  let y := yearFromDay d
  let L := isLeap y
  let dwy := d - dayFromYear y
  let m := monthFromDwy L dwy
  let dd := dwy - monthStart L m + 1
  '-' :: (padNum 2 m.toNat ++ ('-' :: (padNum 2 dd.toNat ++ ('T' ::
    (padNum 2 (msd / 3600000) ++ (':' :: (padNum 2 (msd / 60000 % 60) ++ (':' ::
    (padNum 2 (msd / 1000 % 60) ++ ('.' :: (padNum 3 (msd % 1000) ++ ['Z'])))))))))))

/-- `Date.prototype.toISOString`: print the UTC decomposition of the time
value as `YYYY-MM-DDTHH:mm:ss.sssZ` (years outside `0..9999` use the
expanded `±YYYYYY` form). -/
def toISOString (t : Int) : Str :=
  let y := yearFromDay (t / 86400000)
  (if 0 ≤ y ∧ y ≤ 9999 then padNum 4 y.toNat
   else if 9999 < y then '+' :: padNum 6 y.toNat
   else '-' :: padNum 6 (-y).toNat) ++ isoTail t

/-- The hook's date-normalization step: `new Date(s)` followed by the NaN
check and `toISOString` (event.model, pre-save hook). -/
def normalizeDate (tz : Int) (s : Str) : Option Str :=
  (jsDateParse tz s).map toISOString

/-! ### Time-of-day parsing for `normalizeTime`

`normalizeTime` builds `new Date("1970-01-01T" + trimmed)` and reads local
`getHours`/`getMinutes`.  For offset-free time strings (the modelled class)
the local interpretation makes the zone cancel, so the result depends only
on the parsed clock time.  Strict ISO `HH:mm[:ss[.sss]]` is accepted, and —
matching the lenient V8 fallback the source's comment documents ("Accept
formats like HH:MM, H:MM, with optional AM/PM") — one- or two-digit fields
with an optional case-insensitive meridiem. -/

/-- Read one or two decimal digits. -/
def read1or2 : Str → Option (Nat × Str)
  | [] => none
  | c :: cs =>
    if c.isDigit then
      match cs with
      | c2 :: cs2 =>
        if c2.isDigit then some ((c.toNat - 48) * 10 + (c2.toNat - 48), cs2)
        else some (c.toNat - 48, cs)
      | [] => some (c.toNat - 48, [])
    else none

/-- Validate the lenient-format hour/minute with an optional meridiem
suffix: `AM`/`PM` require an hour of at most 12 and map it to the 24-hour
clock; otherwise the hour must be at most 23. -/
def legacyFinish (h m : Nat) (rest : Str) : Option (Nat × Nat) :=
  match jsToLowerStr (rest.dropWhile jsIsWhitespace) with
  | [] => if h ≤ 23 ∧ m ≤ 59 then some (h, m) else none
  | ['a', 'm'] => if h ≤ 12 ∧ m ≤ 59 then some (h % 12, m) else none
  | ['p', 'm'] => if h ≤ 12 ∧ m ≤ 59 then some (h % 12 + 12, m) else none
  | _ => none

/-- The lenient fallback clock parser: `H:MM[:SS]` with 1–2 digit fields
and an optional meridiem. -/
def legacyClock (cs : Str) : Option (Nat × Nat) :=
  match read1or2 cs with
  | some (h, ':' :: r2) =>
    match read1or2 r2 with
    | none => none
    | some (m, r3) =>
      match r3 with
      | ':' :: r4 =>
        match read1or2 r4 with
        | some (s, r5) => if s ≤ 59 then legacyFinish h m r5 else none
        | none => none
      | _ => legacyFinish h m r3
  | _ => none

/-- The local hour and minute `new Date("1970-01-01T" + cs)` yields for an
offset-free time string `cs`: strict ISO first, then the lenient fallback. -/
def parseClock (cs : Str) : Option (Nat × Nat) :=
  match parseTimeOfDay cs with
  | some (msd, []) => some (msd / 3600000 % 24, msd / 60000 % 60)
  | _ => legacyClock cs

/-- `normalizeTime` from `event.model`: trim, parse as a time-of-day on a
fixed epoch date, fail if invalid, otherwise print zero-padded 24-hour
`HH:MM` from `getHours`/`getMinutes`. -/
def normalizeTime (s : Str) : Option Str :=
  match parseClock (jsTrim s) with
  | none => none
  | some (h, m) => some (padNum 2 h ++ ':' :: padNum 2 m)

/-! ### Calendar lemmas -/

theorem isLeap_iff (y : Int) :
    isLeap y = true ↔ ((y % 4 = 0 ∧ ¬ y % 100 = 0) ∨ y % 400 = 0) := by
  simp [isLeap, Bool.or_eq_true, Bool.and_eq_true, beq_iff_eq, bne_iff_ne]

theorem dayFromYear_mono {a b : Int} (h : a ≤ b) : dayFromYear a ≤ dayFromYear b := by
  unfold dayFromYear
  omega

/-- A year spans 365 days, or 366 in a leap year. -/
theorem dayFromYear_succ (y : Int) :
    dayFromYear (y + 1) = dayFromYear y + (if isLeap y = true then 366 else 365) := by
  by_cases hl : isLeap y = true
  · have h2 : (y % 4 = 0 ∧ ¬ y % 100 = 0) ∨ y % 400 = 0 := (isLeap_iff y).mp hl
    rw [if_pos hl]
    unfold dayFromYear
    omega
  · have h2 : ¬ ((y % 4 = 0 ∧ ¬ y % 100 = 0) ∨ y % 400 = 0) := fun hh => hl ((isLeap_iff y).mpr hh)
    rw [if_neg hl]
    unfold dayFromYear
    omega

/-- `yearFromDay` satisfies the ES `YearFromTime` characterization. -/
theorem yearFromDay_spec (d : Int) :
    dayFromYear (yearFromDay d) ≤ d ∧ d < dayFromYear (yearFromDay d + 1) := by
  simp only [yearFromDay, dayFromYear]
  split_ifs <;> omega

/-- `yearFromDay` is the (unique) inverse of `dayFromYear` on year starts. -/
theorem yearFromDay_dayFromYear (y doy : Int) (h0 : 0 ≤ doy)
    (h1 : doy < (if isLeap y = true then 366 else 365)) :
    yearFromDay (dayFromYear y + doy) = y := by
  obtain ⟨hl, hr⟩ := yearFromDay_spec (dayFromYear y + doy)
  have hsucc := dayFromYear_succ y
  rcases lt_trichotomy (yearFromDay (dayFromYear y + doy)) y with h | h | h
  · have hm : dayFromYear (yearFromDay (dayFromYear y + doy) + 1) ≤ dayFromYear y :=
      dayFromYear_mono (by omega)
    omega
  · exact h
  · have hm : dayFromYear (y + 1) ≤ dayFromYear (yearFromDay (dayFromYear y + doy)) :=
      dayFromYear_mono (by omega)
    omega

/-- Bounded check backing `monthFromDwy_spec` (`n` ranges over days within
the year). -/
def monthSpecOk (L : Bool) (n : Nat) : Bool :=
  let dwy : Int := n
  let m := monthFromDwy L dwy
  decide (1 ≤ m) && decide (m ≤ 12) && decide (monthStart L m ≤ dwy) &&
    decide (dwy < monthStart L m + daysInMonth L m)

set_option maxRecDepth 2000 in
theorem monthSpecOk_all :
    ∀ n < 366, (n < 365 → monthSpecOk false n = true) ∧ monthSpecOk true n = true := by
  decide

/-- Bounded check backing `monthFromDwy_monthStart` (`n` encodes a month and
day-of-month pair). -/
def monthInvOk (L : Bool) (n : Nat) : Bool :=
  let m : Int := n / 31 + 1
  let dd : Int := n % 31 + 1
  decide (¬ dd ≤ daysInMonth L m) ||
    (decide (monthFromDwy L (monthStart L m + dd - 1) = m) &&
     decide (0 ≤ monthStart L m + dd - 1) &&
     decide (monthStart L m + dd - 1 < (if L = true then 366 else 365)))

set_option maxRecDepth 2000 in
theorem monthInvOk_all : ∀ n < 372, monthInvOk false n = true ∧ monthInvOk true n = true := by
  decide

/-- Decomposing a day-of-year into the ES month and day-of-month. -/
theorem monthFromDwy_spec (L : Bool) (dwy : Int) (h0 : 0 ≤ dwy)
    (h1 : dwy < (if L = true then 366 else 365)) :
    1 ≤ monthFromDwy L dwy ∧ monthFromDwy L dwy ≤ 12 ∧
    monthStart L (monthFromDwy L dwy) ≤ dwy ∧
    dwy < monthStart L (monthFromDwy L dwy) + daysInMonth L (monthFromDwy L dwy) := by
  have hn : ((dwy.toNat : Int)) = dwy := Int.toNat_of_nonneg h0
  cases L
  · have hlt : dwy < 365 := by simpa using h1
    have h := (monthSpecOk_all dwy.toNat (by omega)).1 (by omega)
    simp only [monthSpecOk, Bool.and_eq_true, decide_eq_true_eq, hn] at h
    exact ⟨h.1.1.1, h.1.1.2, h.1.2, h.2⟩
  · have hlt : dwy < 366 := by simpa using h1
    have h := (monthSpecOk_all dwy.toNat (by omega)).2
    simp only [monthSpecOk, Bool.and_eq_true, decide_eq_true_eq, hn] at h
    exact ⟨h.1.1.1, h.1.1.2, h.1.2, h.2⟩

/-- Recomposing a valid month and day-of-month gives back the month. -/
theorem monthFromDwy_monthStart (L : Bool) (m dd : Int) (h1 : 1 ≤ m) (h2 : m ≤ 12)
    (hd1 : 1 ≤ dd) (hd2 : dd ≤ daysInMonth L m) :
    monthFromDwy L (monthStart L m + dd - 1) = m ∧
    0 ≤ monthStart L m + dd - 1 ∧
    monthStart L m + dd - 1 < (if L = true then 366 else 365) := by
  have hdd31 : dd ≤ 31 := by
    have : daysInMonth L m ≤ 31 := by
      unfold daysInMonth
      split_ifs <;> omega
    omega
  have hn : (m - 1).toNat * 31 + (dd - 1).toNat < 372 := by omega
  have key : monthInvOk L ((m - 1).toNat * 31 + (dd - 1).toNat) = true := by
    cases L
    · exact (monthInvOk_all _ hn).1
    · exact (monthInvOk_all _ hn).2
  have hmval : (((m - 1).toNat * 31 + (dd - 1).toNat) / 31 + 1 : Int) = m := by omega
  have hddval : (((m - 1).toNat * 31 + (dd - 1).toNat) % 31 + 1 : Int) = dd := by omega
  simp only [monthInvOk, Bool.or_eq_true, Bool.and_eq_true, decide_eq_true_eq] at key
  push_cast at key
  rw [hmval, hddval] at key
  rcases key with k | k
  · omega
  · exact ⟨k.1.1, k.1.2, k.2⟩

/-! ### Print–parse roundtrip

`toISOString` output re-parses to the same time value: the key fact behind
idempotence of the hook's date normalization. -/

theorem timeClip_eq {t u : Int} (h : timeClip t = some u) :
    u = t ∧ -8640000000000000 ≤ t ∧ t ≤ 8640000000000000 := by
  unfold timeClip at h
  split_ifs at h with hc
  exact ⟨(Option.some.inj h).symm, hc.1, hc.2⟩

theorem digitChar_ne_sign {d : Nat} (h : d < 10) :
    ¬ Nat.digitChar d = '+' ∧ ¬ Nat.digitChar d = '-' := by
  interval_cases d <;> exact ⟨by decide, by decide⟩

theorem parseYear_pad4 (n : Nat) (hn : n < 10000) (rest : Str) :
    parseYear (padNum 4 n ++ rest) = some ((n : Int), rest) := by
  have hp4 : (10 : Nat) ^ 4 = 10000 := by norm_num
  have hn' : n < 10 ^ 4 := by omega
  have h4 : padNum 4 n = Nat.digitChar (n / 10 ^ 3) :: padNum 3 (n % 10 ^ 3) := rfl
  obtain ⟨hp, hm⟩ := digitChar_ne_sign (div_pow_lt_ten hn')
  rw [h4, List.cons_append]
  simp only [parseYear]
  rw [if_neg hp, if_neg hm, ← List.cons_append, ← h4, readNum_padNum 4 n rest hn']
  rfl

theorem parseYear_pad6_pos (n : Nat) (hn : n < 1000000) (rest : Str) :
    parseYear (('+' :: padNum 6 n) ++ rest) = some ((n : Int), rest) := by
  have hp6 : (10 : Nat) ^ 6 = 1000000 := by norm_num
  have hn' : n < 10 ^ 6 := by omega
  rw [List.cons_append]
  simp [parseYear, readNum_padNum 6 n rest hn']

theorem parseYear_pad6_neg (n : Nat) (hn : n < 1000000) (hn0 : n ≠ 0) (rest : Str) :
    parseYear (('-' :: padNum 6 n) ++ rest) = some ((-(n : Int)), rest) := by
  have hp6 : (10 : Nat) ^ 6 = 1000000 := by norm_num
  have hn' : n < 10 ^ 6 := by omega
  rw [List.cons_append]
  simp [parseYear, readNum_padNum 6 n rest hn', hn0]

theorem readFrac_pad3 (n : Nat) (h : n < 1000) :
    readFrac (padNum 3 n ++ ['Z']) = some (n, ['Z']) := by
  have e : padNum 3 n ++ ['Z'] =
      Nat.digitChar (n / 100) :: Nat.digitChar (n % 100 / 10) ::
        Nat.digitChar (n % 100 % 10) :: 'Z' :: [] := by
    norm_num [padNum]
  obtain ⟨i1, v1⟩ := digitChar_isDigit (show n / 100 < 10 by omega)
  obtain ⟨i2, v2⟩ := digitChar_isDigit (show n % 100 / 10 < 10 by omega)
  obtain ⟨i3, v3⟩ := digitChar_isDigit (show n % 100 % 10 < 10 by omega)
  rw [e]
  simp only [readFrac, i1, i2, i3, if_true]
  simp only [v1, v2, v3]
  rw [if_neg (show ¬ (Char.isDigit 'Z' = true) from by decide)]
  simp only [Option.some.injEq, Prod.mk.injEq, and_true]
  omega

theorem parseTimeOfDay_print (hh mi ss msf : Nat)
    (h1 : hh ≤ 23) (h2 : mi ≤ 59) (h3 : ss ≤ 59) (h4 : msf < 1000) :
    parseTimeOfDay (padNum 2 hh ++ (':' :: (padNum 2 mi ++ (':' ::
        (padNum 2 ss ++ ('.' :: (padNum 3 msf ++ ['Z']))))))) =
      some (hh * 3600000 + mi * 60000 + ss * 1000 + msf, ['Z']) := by
  simp only [parseTimeOfDay]
  rw [readNum_padNum 2 hh (':' :: (padNum 2 mi ++ (':' :: (padNum 2 ss ++
    ('.' :: (padNum 3 msf ++ ['Z'])))))) (by norm_num; omega)]
  simp only
  rw [readNum_padNum 2 mi (':' :: (padNum 2 ss ++ ('.' :: (padNum 3 msf ++ ['Z']))))
    (by norm_num; omega)]
  simp only
  rw [readNum_padNum 2 ss ('.' :: (padNum 3 msf ++ ['Z'])) (by norm_num; omega)]
  simp only
  rw [readFrac_pad3 msf h4]
  simp only
  rw [if_pos (Or.inl ⟨h1, h2, h3⟩)]

theorem finishDT_print (tz day : Int) (hh mi ss msf : Nat)
    (h1 : hh ≤ 23) (h2 : mi ≤ 59) (h3 : ss ≤ 59) (h4 : msf < 1000) :
    finishDT tz day ('T' :: (padNum 2 hh ++ (':' :: (padNum 2 mi ++ (':' ::
        (padNum 2 ss ++ ('.' :: (padNum 3 msf ++ ['Z'])))))))) =
      timeClip (day * 86400000 + ((hh * 3600000 + mi * 60000 + ss * 1000 + msf : Nat) : Int)) := by
  simp only [finishDT]
  rw [parseTimeOfDay_print hh mi ss msf h1 h2 h3 h4]
  simp only




theorem parseMonthDT_print (tz y m dd : Int) (hh mi ss msf : Nat)
    (hm1 : 1 ≤ m) (hm2 : m ≤ 12) (hdd1 : 1 ≤ dd)
    (hdd2 : dd ≤ daysInMonth (isLeap y) m)
    (h1 : hh ≤ 23) (h2 : mi ≤ 59) (h3 : ss ≤ 59) (h4 : msf < 1000) :
    parseMonthDT tz y ('-' :: (padNum 2 m.toNat ++ ('-' :: (padNum 2 dd.toNat ++ ('T' ::
        (padNum 2 hh ++ (':' :: (padNum 2 mi ++ (':' :: (padNum 2 ss ++
        ('.' :: (padNum 3 msf ++ ['Z'])))))))))))) =
      timeClip ((dayFromYear y + monthStart (isLeap y) m + dd - 1) * 86400000 +
        ((hh * 3600000 + mi * 60000 + ss * 1000 + msf : Nat) : Int)) := by
  have hmN : ((m.toNat : Int)) = m := Int.toNat_of_nonneg (by omega)
  have hddN : ((dd.toNat : Int)) = dd := Int.toNat_of_nonneg (by omega)
  have hdim : daysInMonth (isLeap y) m ≤ 31 := by
    unfold daysInMonth
    split_ifs <;> omega
  simp only [parseMonthDT]
  rw [readNum_padNum 2 m.toNat ('-' :: (padNum 2 dd.toNat ++ ('T' :: (padNum 2 hh ++
    (':' :: (padNum 2 mi ++ (':' :: (padNum 2 ss ++ ('.' :: (padNum 3 msf ++ ['Z']))))))))))
    (by norm_num; omega)]
  try simp only
  rw [if_pos (show 1 ≤ m.toNat ∧ m.toNat ≤ 12 by omega)]
  try simp only
  rw [readNum_padNum 2 dd.toNat ('T' :: (padNum 2 hh ++ (':' :: (padNum 2 mi ++
    (':' :: (padNum 2 ss ++ ('.' :: (padNum 3 msf ++ ['Z']))))))))
    (by norm_num; omega)]
  try simp only
  rw [hmN, hddN]
  rw [if_pos (show 1 ≤ dd.toNat ∧ dd ≤ daysInMonth (isLeap y) m from ⟨by omega, hdd2⟩)]
  rw [finishDT_print tz (dayFromYear y + monthStart (isLeap y) m + dd - 1)
    hh mi ss msf h1 h2 h3 h4]



theorem parseMonthDT_isoTail (tz t : Int)
    (hlo : -8640000000000000 ≤ t) (hhi : t ≤ 8640000000000000) :
    parseMonthDT tz (yearFromDay (t / 86400000)) (isoTail t) = some t := by
  simp only [isoTail]
  set d := t / 86400000 with hd
  set y := yearFromDay d with hy
  set msdN := (t % 86400000).toNat with hmsdN
  set dwy := d - dayFromYear y with hdwy
  set m := monthFromDwy (isLeap y) dwy with hm
  set dd := dwy - monthStart (isLeap y) m + 1 with hddq
  obtain ⟨hyl, hyr⟩ := yearFromDay_spec d
  have hspan := dayFromYear_succ y
  have hmsd0 : 0 ≤ t % 86400000 := Int.emod_nonneg t (by norm_num)
  have hmsd1 : t % 86400000 < 86400000 := Int.emod_lt_of_pos t (by norm_num)
  have hdwy0 : 0 ≤ dwy := by rw [hdwy, hy]; omega
  have hdwy1 : dwy < (if isLeap y = true then 366 else 365) := by
    by_cases hL : isLeap y = true
    · rw [if_pos hL] at hspan ⊢
      rw [hdwy, hy]
      rw [hy] at hspan
      omega
    · rw [if_neg hL] at hspan ⊢
      rw [hdwy, hy]
      rw [hy] at hspan
      omega
  obtain ⟨hm1, hm2, hms, hme⟩ := monthFromDwy_spec (isLeap y) dwy hdwy0 hdwy1
  rw [← hm] at hm1 hm2 hms hme
  rw [parseMonthDT_print tz y m dd (msdN / 3600000) (msdN / 60000 % 60)
    (msdN / 1000 % 60) (msdN % 1000) hm1 hm2 (by omega) (by omega)
    (by omega) (by omega) (by omega) (by omega)]
  have hval : (dayFromYear y + monthStart (isLeap y) m + dd - 1) * 86400000 +
      ((msdN / 3600000 * 3600000 + msdN / 60000 % 60 * 60000 +
        msdN / 1000 % 60 * 1000 + msdN % 1000 : Nat) : Int) = t := by
    omega
  rw [hval]
  unfold timeClip
  rw [if_pos ⟨hlo, hhi⟩]



theorem jsDateParse_toISOString (tz t : Int)
    (hlo : -8640000000000000 ≤ t) (hhi : t ≤ 8640000000000000) :
    jsDateParse tz (toISOString t) = some t := by
  obtain ⟨hyl, hyr⟩ := yearFromDay_spec (t / 86400000)
  have hb1 : dayFromYear (-271821) = -100000109 := by decide
  have hb2 : dayFromYear 275761 = 100000110 := by decide
  have hdb : -100000000 ≤ t / 86400000 ∧ t / 86400000 ≤ 100000000 := by omega
  have hy1 : -271821 ≤ yearFromDay (t / 86400000) := by
    by_contra hc
    push_neg at hc
    have := dayFromYear_mono (show yearFromDay (t / 86400000) + 1 ≤ -271821 by omega)
    omega
  have hy2 : yearFromDay (t / 86400000) ≤ 275760 := by
    by_contra hc
    push_neg at hc
    have := dayFromYear_mono (show (275761 : Int) ≤ yearFromDay (t / 86400000) by omega)
    omega
  simp only [toISOString, jsDateParse]
  by_cases hcase : 0 ≤ yearFromDay (t / 86400000) ∧ yearFromDay (t / 86400000) ≤ 9999
  · rw [if_pos hcase]
    rw [parseYear_pad4 (yearFromDay (t / 86400000)).toNat (by omega) (isoTail t)]
    simp only
    rw [Int.toNat_of_nonneg hcase.1]
    exact parseMonthDT_isoTail tz t hlo hhi
  · rw [if_neg hcase]
    by_cases hcase2 : 9999 < yearFromDay (t / 86400000)
    · rw [if_pos hcase2]
      rw [parseYear_pad6_pos (yearFromDay (t / 86400000)).toNat (by omega) (isoTail t)]
      simp only
      rw [Int.toNat_of_nonneg (by omega)]
      exact parseMonthDT_isoTail tz t hlo hhi
    · rw [if_neg hcase2]
      have hneg : yearFromDay (t / 86400000) < 0 := by omega
      rw [parseYear_pad6_neg (-(yearFromDay (t / 86400000))).toNat (by omega) (by omega)
        (isoTail t)]
      simp only
      rw [show (-(((-(yearFromDay (t / 86400000))).toNat : Int))) = yearFromDay (t / 86400000)
        by omega]
      exact parseMonthDT_isoTail tz t hlo hhi

theorem finishDT_bounds {tz day t : Int} {r : Str} (h : finishDT tz day r = some t) :
    -8640000000000000 ≤ t ∧ t ≤ 8640000000000000 := by
  unfold finishDT at h
  split at h
  · obtain ⟨he, hb1, hb2⟩ := timeClip_eq h
    omega
  · split at h
    · exact absurd h (by simp)
    · split at h
      · obtain ⟨he, hb1, hb2⟩ := timeClip_eq h
        omega
      · obtain ⟨he, hb1, hb2⟩ := timeClip_eq h
        omega
      · obtain ⟨off, hoff, h2⟩ := Option.bind_eq_some.mp h
        obtain ⟨he, hb1, hb2⟩ := timeClip_eq h2
        omega
      · obtain ⟨off, hoff, h2⟩ := Option.bind_eq_some.mp h
        obtain ⟨he, hb1, hb2⟩ := timeClip_eq h2
        omega
      · exact absurd h (by simp)
  · exact absurd h (by simp)

theorem parseMonthDT_bounds {tz y t : Int} {r : Str} (h : parseMonthDT tz y r = some t) :
    -8640000000000000 ≤ t ∧ t ≤ 8640000000000000 := by
  unfold parseMonthDT at h
  split at h
  · split at h
    · exact absurd h (by simp)
    · split_ifs at h
      split at h
      · split at h
        · exact absurd h (by simp)
        · split_ifs at h
          exact finishDT_bounds h
      · exact finishDT_bounds h
  · exact finishDT_bounds h

theorem jsDateParse_bounds {tz t : Int} {s : Str} (h : jsDateParse tz s = some t) :
    -8640000000000000 ≤ t ∧ t ≤ 8640000000000000 := by
  unfold jsDateParse at h
  split at h
  · exact absurd h (by simp)
  · exact parseMonthDT_bounds h

/-- Re-normalizing an already-normalized date string is the identity. -/
theorem normalizeDate_idem (tz tz' : Int) (s s' : Str) (h : normalizeDate tz s = some s') :
    normalizeDate tz' s' = some s' := by
  unfold normalizeDate at h ⊢
  obtain ⟨t0, ht0, hs'⟩ := Option.map_eq_some'.mp h
  obtain ⟨hb1, hb2⟩ := jsDateParse_bounds ht0
  rw [← hs', jsDateParse_toISOString tz' t0 hb1 hb2]
  rfl


/-! ### String lemmas: trimming and lowercasing -/

theorem toNat_ofNat_lt {n : Nat} (h : n < 55296) : (Char.ofNat n).toNat = n := by
  unfold Char.ofNat
  rw [dif_pos (Or.inl h)]
  rfl

theorem jsIsWhitespace_toLower (c : Char) :
    jsIsWhitespace (jsToLower c) = jsIsWhitespace c := by
  unfold jsToLower
  split_ifs with h
  · have h32 : (Char.ofNat (c.toNat + 32)).toNat = c.toNat + 32 := toNat_ofNat_lt (by omega)
    unfold jsIsWhitespace
    rw [h32, Bool.eq_iff_iff]
    simp only [Bool.or_eq_true, Bool.and_eq_true, beq_iff_eq, decide_eq_true_eq]
    omega
  · rfl

theorem jsToLowerStr_trim (s : Str) : jsToLowerStr (jsTrim s) = jsTrim (jsToLowerStr s) := by
  have hfun : (jsIsWhitespace ∘ jsToLower) = jsIsWhitespace := by
    funext c
    exact jsIsWhitespace_toLower c
  unfold jsTrim jsTrimLeft jsTrimRight jsToLowerStr
  conv_rhs => rw [List.dropWhile_map, hfun, ← List.map_reverse, List.dropWhile_map, hfun,
    ← List.map_reverse]

theorem dropWhile_head_false {p : Char → Bool} {l : Str} {c : Char} {r : Str}
    (h : l.dropWhile p = c :: r) : p c = false := by
  induction l with
  | nil => simp [List.dropWhile] at h
  | cons x xs ih =>
    rw [List.dropWhile_cons] at h
    split_ifs at h with hx
    · exact ih h
    · cases h
      simpa using hx

theorem dropWhile_idem {p : Char → Bool} (l : Str) :
    List.dropWhile p (List.dropWhile p l) = List.dropWhile p l := by
  cases hdes : List.dropWhile p l with
  | nil => rfl
  | cons c r =>
    have hc := dropWhile_head_false hdes
    rw [List.dropWhile_cons, if_neg (by simp [hc])]

theorem jsTrimRight_idem (u : Str) : jsTrimRight (jsTrimRight u) = jsTrimRight u := by
  unfold jsTrimRight
  rw [List.reverse_reverse, dropWhile_idem]

theorem jsTrimLeft_trimRight (s : Str) :
    jsTrimLeft (jsTrimRight (jsTrimLeft s)) = jsTrimRight (jsTrimLeft s) := by
  cases htr : jsTrimRight (jsTrimLeft s) with
  | nil => rfl
  | cons c r =>
    have hpre : jsTrimRight (jsTrimLeft s) <+: jsTrimLeft s := by
      unfold jsTrimRight
      have h1 := List.reverse_prefix.mpr
        (List.dropWhile_suffix (l := (jsTrimLeft s).reverse) jsIsWhitespace)
      rw [List.reverse_reverse] at h1
      exact h1
    obtain ⟨tail, htail⟩ := hpre
    rw [htr] at htail
    have hhead : List.dropWhile jsIsWhitespace s = c :: (r ++ tail) := by
      unfold jsTrimLeft at htail
      rw [← htail]
      simp
    have hc := dropWhile_head_false hhead
    unfold jsTrimLeft
    rw [List.dropWhile_cons, if_neg (by simp [hc])]

theorem jsTrim_idem (s : Str) : jsTrim (jsTrim s) = jsTrim s := by
  unfold jsTrim
  rw [jsTrimLeft_trimRight, jsTrimRight_idem]

theorem jsTrim_eq_self {s : Str} (h : ∀ c ∈ s, jsIsWhitespace c = false) : jsTrim s = s := by
  unfold jsTrim jsTrimLeft jsTrimRight
  have h1 : List.dropWhile jsIsWhitespace s = s := by
    cases s with
    | nil => rfl
    | cons c cs => rw [List.dropWhile_cons, if_neg (by simp [h c (by simp)])]
  rw [h1]
  have h2 : List.dropWhile jsIsWhitespace s.reverse = s.reverse := by
    cases hrev : s.reverse with
    | nil => rfl
    | cons c cs =>
      have hcmem : c ∈ s := by
        have hm : c ∈ s.reverse := by
          rw [hrev]
          simp
        simpa using hm
      rw [List.dropWhile_cons, if_neg (by simp [h c hcmem])]
  rw [h2, List.reverse_reverse]

/-- `slugify` already trims internally, so trimming its input first changes
nothing. -/
theorem slugify_trim (t : Str) : slugify (jsTrim t) = slugify t := by
  unfold slugify
  rw [jsToLowerStr_trim, jsTrim_idem]

/-! ### Time-of-day roundtrip -/

theorem parseTimeOfDay_hm (h m : Nat) (hh : h ≤ 23) (hm : m ≤ 59) :
    parseTimeOfDay (padNum 2 h ++ ':' :: padNum 2 m) = some (h * 3600000 + m * 60000, []) := by
  simp only [parseTimeOfDay]
  rw [readNum_padNum 2 h (':' :: padNum 2 m) (by norm_num; omega)]
  try simp only
  rw [show (padNum 2 m : Str) = padNum 2 m ++ [] from by simp,
    readNum_padNum 2 m [] (by norm_num; omega)]
  try simp only
  rw [if_pos (Or.inl ⟨hh, hm, by omega⟩)]
  norm_num

theorem legacyFinish_bounds {a b : Nat} {r : Str} {h m : Nat}
    (hp : legacyFinish a b r = some (h, m)) : h < 24 ∧ m < 60 := by
  unfold legacyFinish at hp
  split at hp
  · split_ifs at hp with hc
    simp only [Option.some.injEq, Prod.mk.injEq] at hp
    omega
  · split_ifs at hp with hc
    simp only [Option.some.injEq, Prod.mk.injEq] at hp
    omega
  · split_ifs at hp with hc
    simp only [Option.some.injEq, Prod.mk.injEq] at hp
    omega
  · exact absurd hp (by simp)

theorem legacyClock_bounds {cs : Str} {h m : Nat}
    (hp : legacyClock cs = some (h, m)) : h < 24 ∧ m < 60 := by
  unfold legacyClock at hp
  split at hp
  · split at hp
    · exact absurd hp (by simp)
    · split at hp
      · split at hp
        · split_ifs at hp
          exact legacyFinish_bounds hp
        · exact absurd hp (by simp)
      · exact legacyFinish_bounds hp
  · exact absurd hp (by simp)

theorem parseClock_bounds {cs : Str} {h m : Nat}
    (hp : parseClock cs = some (h, m)) : h < 24 ∧ m < 60 := by
  unfold parseClock at hp
  split at hp
  · simp only [Option.some.injEq, Prod.mk.injEq] at hp
    obtain ⟨e1, e2⟩ := hp
    omega
  · exact legacyClock_bounds hp

theorem hm_str_no_ws (h m : Nat) (hh : h < 100) (hm : m < 100) :
    ∀ c ∈ padNum 2 h ++ ':' :: padNum 2 m, jsIsWhitespace c = false := by
  intro c hc
  rw [List.mem_append] at hc
  rcases hc with hc | hc
  · exact padNum_not_whitespace 2 h (by norm_num; omega) c hc
  · rcases List.mem_cons.mp hc with hc | hc
    · subst hc
      rfl
    · exact padNum_not_whitespace 2 m (by norm_num; omega) c hc

/-- Re-normalizing an already-normalized time string is the identity. -/
theorem normalizeTime_idem (s hm : Str) (h : normalizeTime s = some hm) :
    normalizeTime hm = some hm := by
  unfold normalizeTime at h
  cases hpc : parseClock (jsTrim s) with
  | none =>
    rw [hpc] at h
    exact absurd h (by simp)
  | some p =>
    obtain ⟨hh, mm⟩ := p
    rw [hpc] at h
    obtain ⟨hb1, hb2⟩ := parseClock_bounds hpc
    have hhm : hm = padNum 2 hh ++ ':' :: padNum 2 mm := (Option.some.inj h).symm
    subst hhm
    unfold normalizeTime
    rw [jsTrim_eq_self (hm_str_no_ws hh mm (by omega) (by omega))]
    unfold parseClock
    rw [parseTimeOfDay_hm hh mm (by omega) (by omega)]
    have e1 : (hh * 3600000 + mm * 60000) / 3600000 % 24 = hh := by omega
    have e2 : (hh * 3600000 + mm * 60000) / 60000 % 60 = mm := by omega
    simp only [e1, e2]



/-- Decidable equality for `Except`, used to evaluate the pipeline on
concrete documents. -/
instance {e a : Type} [DecidableEq e] [DecidableEq a] : DecidableEq (Except e a) := fun x y =>
  match x, y with
  | .ok u, .ok v =>
    if h : u = v then .isTrue (h ▸ rfl) else .isFalse (fun hc => h (Except.ok.inj hc))
  | .error u, .error v =>
    if h : u = v then .isTrue (h ▸ rfl) else .isFalse (fun hc => h (Except.error.inj hc))
  | .ok _, .error _ => .isFalse (fun hc => Except.noConfusion hc)
  | .error _, .ok _ => .isFalse (fun hc => Except.noConfusion hc)

/-! ### The Event pipeline

`event.model`'s layers, in mongoose's execution order for `save()`: schema
setters (`trim: true`) applied at assignment, then schema validation
(`required`, the agenda/tags validators — mongoose runs validation before
user pre-save hooks), then the pre-save hook.  Field values are
`Option Str`: `none` models an absent (or non-string, uncastable) value. -/

/-- An Event document's writable fields (`EventAttrs`). -/
structure EventDoc where
  title : Option Str
  slug : Option Str
  description : Option Str
  overview : Option Str
  image : Option Str
  venue : Option Str
  location : Option Str
  date : Option Str
  time : Option Str
  mode : Option Str
  audience : Option Str
  organizer : Option Str
  agenda : Option (List Str)
  tags : Option (List Str)
deriving DecidableEq

/-- Errors surfaced by the Event write pipeline (all are ValidationErrors at
the mongoose level; the constructors record which rule failed). -/
inductive EventError where
  | schemaRequired : EventError
  | agendaInvalid : EventError
  | tagsInvalid : EventError
  | hookRequired : EventError
  | dateInvalid : EventError
  | timeInvalid : EventError
deriving DecidableEq

/-- Trim the eleven required string fields (the hook's loop re-applies
exactly this). -/
def trimFields (d : EventDoc) : EventDoc :=
  { d with
    title := d.title.map jsTrim
    description := d.description.map jsTrim
    overview := d.overview.map jsTrim
    image := d.image.map jsTrim
    venue := d.venue.map jsTrim
    location := d.location.map jsTrim
    date := d.date.map jsTrim
    time := d.time.map jsTrim
    mode := d.mode.map jsTrim
    audience := d.audience.map jsTrim
    organizer := d.organizer.map jsTrim }

/-- The schema's `trim: true` setters, applied when values are assigned:
the eleven required fields plus `slug`. -/
def trimSetters (d : EventDoc) : EventDoc :=
  { trimFields d with slug := d.slug.map jsTrim }

/-- Mongoose `required: true` for a string path: present and non-empty. -/
def requiredOk (v : Option Str) : Bool :=
  match v with
  | some s => !s.isEmpty
  | none => false

/-- The agenda/tags validator from `event.model`: a non-empty array whose
every item is non-empty after trimming (an absent array fails `required`;
mongoose would default it to `[]`, which this validator rejects too). -/
def listOk (v : Option (List Str)) : Bool :=
  match v with
  | some l => !l.isEmpty && l.all fun item => !(jsTrim item).isEmpty
  | none => false

/-- Schema-level validation. -/
def eventSchemaValidate (d : EventDoc) : Except EventError EventDoc :=
  if requiredOk d.title && requiredOk d.description && requiredOk d.overview &&
      requiredOk d.image && requiredOk d.venue && requiredOk d.location &&
      requiredOk d.date && requiredOk d.time && requiredOk d.mode &&
      requiredOk d.audience && requiredOk d.organizer then
    if listOk d.agenda then
      if listOk d.tags then .ok d else .error .tagsInvalid
    else .error .agendaInvalid
  else .error .schemaRequired

/-- The hook's required-string check: present with non-empty trim. -/
def hookFieldOk (v : Option Str) : Bool :=
  match v with
  | some s => !(jsTrim s).isEmpty
  | none => false

/-- All eleven fields of the hook's `requiredStringFields` loop pass. -/
def hookFieldsOk (d : EventDoc) : Bool :=
  hookFieldOk d.title && hookFieldOk d.description && hookFieldOk d.overview &&
  hookFieldOk d.image && hookFieldOk d.venue && hookFieldOk d.location &&
  hookFieldOk d.date && hookFieldOk d.time && hookFieldOk d.mode &&
  hookFieldOk d.audience && hookFieldOk d.organizer

/-- `!doc.slug` in the hook: absent or the empty string (both falsy). -/
def slugFalsy (v : Option Str) : Bool :=
  match v with
  | some s => s.isEmpty
  | none => true

/-- The `eventSchema.pre('save')` hook: check and trim the eleven required
string fields (the per-field failure messages are collapsed into the single
`hookRequired` constructor), regenerate the slug when the title was modified
or the slug is falsy, then normalize `date` (to the ISO timestamp string)
and `time` (to `HH:MM`).  `titleModified` models `doc.isModified('title')`;
`tz` is the local-zone offset in minutes used by the date parser. -/
def eventPreSave (tz : Int) (titleModified : Bool) (d : EventDoc) :
    Except EventError EventDoc :=
  if hookFieldsOk d then
    match jsDateParse tz ((trimFields d).date.getD []) with
    | none => .error .dateInvalid
    | some t =>
      match normalizeTime ((trimFields d).time.getD []) with
      | none => .error .timeInvalid
      | some hm =>
        .ok { trimFields d with
              slug := if titleModified || slugFalsy d.slug
                then some (slugify ((trimFields d).title.getD [])) else d.slug,
              date := some (toISOString t), time := some hm }
  else .error .hookRequired

/-- A full Event write: setters, schema validation, then the pre-save hook. -/
def eventSave (tz : Int) (titleModified : Bool) (d : EventDoc) :
    Except EventError EventDoc :=
  match eventSchemaValidate (trimSetters d) with
  | .error e => .error e
  | .ok d1 => eventPreSave tz titleModified d1

/-! ### The Booking pipeline

`booking.model`: the email path has `trim: true`, `lowercase: true` setters
and the regex validator; the pre-save hook checks that the referenced Event
exists (`Event.findById`) and re-checks the email shape.  The Event store is
modelled as the list of existing event ids; `Types.ObjectId` as `Nat`. -/

/-- The email regex `^[^\s@]+@[^\s@]+\.[^\s@]+$` as a predicate: a
non-empty whitespace-free local part, exactly one `@`, and after it a
whitespace-free, `@`-free part containing a dot with at least one character
on each side. -/
def emailOk (s : Str) : Bool :=
  let A := s.takeWhile fun c => !(c == '@')
  match s.dropWhile fun c => !(c == '@') with
  | '@' :: B =>
    !A.isEmpty && A.all (fun c => !jsIsWhitespace c) &&
    !B.isEmpty && B.all (fun c => !jsIsWhitespace c && !(c == '@')) &&
    (B.drop 1).dropLast.contains '.'
  | _ => false

/-- Errors surfaced by the Booking write pipeline. -/
inductive BookingError where
  | emailRequired : BookingError
  | emailInvalid : BookingError
  | eventMissing : BookingError
  | emailInvalidHook : BookingError
deriving DecidableEq

/-- A Booking document after casting. -/
structure BookingDoc where
  eventId : Nat
  email : Str
deriving DecidableEq

/-- Schema layer for Booking: apply the email setters (trim, lowercase),
then `required` and the regex validator. -/
def bookingSchemaValidate (eventId : Nat) (email : Option Str) :
    Except BookingError BookingDoc :=
  match email with
  | none => .error .emailRequired
  | some e0 =>
    let e := jsToLowerStr (jsTrim e0)
    if e.isEmpty then .error .emailRequired
    else if emailOk e then .ok ⟨eventId, e⟩ else .error .emailInvalid

/-- The `bookingSchema.pre('save')` hook: the referenced Event must exist
(the `Event.findById` lookup against the store), then the email shape is
re-checked. -/
def bookingPreSave (events : List Nat) (b : BookingDoc) :
    Except BookingError BookingDoc :=
  if events.contains b.eventId then
    if emailOk b.email then .ok b else .error .emailInvalidHook
  else .error .eventMissing

/-- A full Booking creation: schema validation then the pre-save hook. -/
def bookingSave (events : List Nat) (eventId : Nat) (email : Option Str) :
    Except BookingError BookingDoc :=
  match bookingSchemaValidate eventId email with
  | .error e => .error e
  | .ok b => bookingPreSave events b

/-! ### The connection cache (`src/lib/mongodb.ts`)

`connectToDatabase` over the process-wide cache `{ conn, promise }`.  The
asynchronous parts are abstracted: `fresh` is the promise a new
`mongoose.connect(uri)` call would produce, and `result` gives the outcome
of awaiting any promise (the same promise always settles the same way).
The trace records whether the environment variable was read and whether a
new connection attempt was started. -/

/-- The module-level cache (`global._mongoose`): `conn`, `promise`. -/
structure MongooseCache (H P : Type) where
  conn : Option H
  promise : Option P

/-- Observable effects of one `connectToDatabase()` call. -/
structure ConnectTrace where
  envRead : Bool
  attemptStarted : Bool
deriving DecidableEq

/-- Errors of `connectToDatabase`: the missing-`MONGODB_URI` configuration
error, or a propagated connection failure. -/
inductive ConnectError (E : Type) where
  | configMissing : ConnectError E
  | connectionFailed (e : E) : ConnectError E

/-- `connectToDatabase` from `src/lib/mongodb.ts`: return the cached
connection if set; otherwise, if no attempt is pending, read the uri (fail
fast if absent) and start and cache a new attempt; await the (new or
pending) attempt, caching the connection on success.  Nothing ever clears
`promise`. -/
def connectToDatabase {H P E : Type} (uri : Option Str) (fresh : P)
    (result : P → Except E H) (cache : MongooseCache H P) :
    Except (ConnectError E) H × MongooseCache H P × ConnectTrace :=
  match cache.conn with
  | some h => (.ok h, cache, ⟨false, false⟩)
  | none =>
    match cache.promise with
    | some p =>
      match result p with
      | .ok h => (.ok h, { cache with conn := some h }, ⟨false, false⟩)
      | .error e => (.error (.connectionFailed e), cache, ⟨false, false⟩)
    | none =>
      match uri with
      | none => (.error .configMissing, cache, ⟨true, false⟩)
      | some _ =>
        let c1 : MongooseCache H P := { cache with promise := some fresh }
        match result fresh with
        | .ok h => (.ok h, { c1 with conn := some h }, ⟨true, true⟩)
        | .error e => (.error (.connectionFailed e), c1, ⟨true, true⟩)


/-! ### The claims -/

/-- C6: `connect()` fails with a ConfigurationError iff no handle is
cached, no attempt is pending, and the connection-target configuration is
absent; that failure reads the environment but starts no network attempt
and leaves the cache untouched; and a cached handle is returned immediately
with no configuration read and no new attempt. -/
theorem connect_config_error_iff {H P E : Type} (uri : Option Str) (fresh : P)
    (result : P → Except E H) (cache : MongooseCache H P) :
    ((connectToDatabase uri fresh result cache).1 = .error .configMissing ↔
      cache.conn = none ∧ cache.promise = none ∧ uri = none) ∧
    (cache.conn = none → cache.promise = none → uri = none →
      (connectToDatabase uri fresh result cache).2.2 = ⟨true, false⟩ ∧
      (connectToDatabase uri fresh result cache).2.1 = cache) ∧
    (∀ h, cache.conn = some h →
      (connectToDatabase uri fresh result cache).1 = .ok h ∧
      (connectToDatabase uri fresh result cache).2.2 = ⟨false, false⟩ ∧
      (connectToDatabase uri fresh result cache).2.1 = cache) := by
  obtain ⟨conn, promise⟩ := cache
  cases conn with
  | some h => simp [connectToDatabase]
  | none =>
    cases promise with
    | some p =>
      cases hres : result p with
      | ok h => simp [connectToDatabase, hres]
      | error e => simp [connectToDatabase, hres]
    | none =>
      cases uri with
      | none => simp [connectToDatabase]
      | some u =>
        cases hres : result fresh with
        | ok h => simp [connectToDatabase, hres]
        | error e => simp [connectToDatabase, hres]

theorem connect_config_error_iff_witness :
    ((connectToDatabase (none) (0 : Nat) (fun _ => (.ok 0 : Except Nat Nat))
        ⟨none, none⟩).1 = .error .configMissing) ∧
    ((connectToDatabase (none) (0 : Nat) (fun _ => (.ok 0 : Except Nat Nat))
        ⟨some 3, none⟩).1 = .ok 3) := by
  refine ⟨?_, ?_⟩
  · exact (connect_config_error_iff none 0 (fun _ => .ok 0) ⟨none, none⟩).1.mpr
      ⟨rfl, rfl, rfl⟩
  · exact ((connect_config_error_iff none 0 (fun _ => .ok 0) ⟨some 3, none⟩).2.2 3 rfl).1

/-- C7: once `promise` is set it is never cleared by any path of
`connect()`: the call starts no new attempt, and when the cached attempt
fails the same error is propagated and the cache is left exactly as it was,
so every later call repeats the same outcome. -/
theorem connect_pending_never_cleared {H P E : Type} (uri : Option Str) (fresh : P)
    (result : P → Except E H) (cache : MongooseCache H P) (p : P)
    (hp : cache.promise = some p) :
    (connectToDatabase uri fresh result cache).2.1.promise = some p ∧
    (connectToDatabase uri fresh result cache).2.2.attemptStarted = false ∧
    (cache.conn = none → ∀ e, result p = .error e →
      (connectToDatabase uri fresh result cache).1 = .error (.connectionFailed e) ∧
      (connectToDatabase uri fresh result cache).2.1 = cache) := by
  obtain ⟨conn, promise⟩ := cache
  cases hp
  cases conn with
  | some h => simp [connectToDatabase]
  | none =>
    cases hres : result p with
    | ok h => simp [connectToDatabase, hres]
    | error e => simp [connectToDatabase, hres]

theorem connect_pending_never_cleared_witness :
    ((connectToDatabase (some ("mongodb".data)) (9 : Nat)
        (fun _ => (.error 42 : Except Nat Nat)) ⟨none, some 7⟩).1 =
      .error (.connectionFailed 42)) ∧
    ((connectToDatabase (some ("mongodb".data)) (9 : Nat)
        (fun _ => (.error 42 : Except Nat Nat)) ⟨none, some 7⟩).2.1 = ⟨none, some 7⟩) := by
  have h := connect_pending_never_cleared (some ("mongodb".data)) 9
    (fun _ => (.error 42 : Except Nat Nat)) ⟨none, some 7⟩ 7 rfl
  exact h.2.2 rfl 42 rfl

/-- C10: date and time normalization are idempotent: re-normalizing the ISO
output of a successful date normalization reproduces it exactly (in any
zone, since the output is UTC-anchored), and re-normalizing the `HH:MM`
output of a successful time normalization reproduces it exactly. -/
theorem normalization_idempotent :
    (∀ (tz tz' : Int) (s s' : Str), normalizeDate tz s = some s' →
      normalizeDate tz' s' = some s') ∧
    (∀ (s hm : Str), normalizeTime s = some hm → normalizeTime hm = some hm) :=
  ⟨fun tz tz' s s' h => normalizeDate_idem tz tz' s s' h,
   fun s hm h => normalizeTime_idem s hm h⟩

theorem normalization_idempotent_witness :
    normalizeDate 0 ("2024-03-01T00:00:00.000Z".data) =
      some ("2024-03-01T00:00:00.000Z".data) ∧
    normalizeTime ("14:30".data) = some ("14:30".data) :=
  ⟨normalization_idempotent.1 0 0 ("2024-03-01".data)
      ("2024-03-01T00:00:00.000Z".data) (by decide),
   normalization_idempotent.2 (" 2:30 PM ".data) ("14:30".data) (by decide)⟩

/-- C5: creating a Booking whose email passes the schema shape check fails
with the referenced-event ValidationError exactly when no Event with the
given id exists at the pre-commit check; when the Event exists the creation
succeeds, the stored email is the trimmed lowercased input, and it passes
the hook's re-verification of the email shape. -/
theorem booking_existence_check (events : List Nat) (eventId : Nat) (e0 : Str)
    (hne : (jsToLowerStr (jsTrim e0)).isEmpty = false)
    (hok : emailOk (jsToLowerStr (jsTrim e0)) = true) :
    (bookingSave events eventId (some e0) = .error .eventMissing ↔
      events.contains eventId = false) ∧
    (events.contains eventId = true →
      bookingSave events eventId (some e0) = .ok ⟨eventId, jsToLowerStr (jsTrim e0)⟩ ∧
      emailOk (jsToLowerStr (jsTrim e0)) = true) := by
  unfold bookingSave bookingSchemaValidate
  simp only [hne, hok, Bool.false_eq_true, if_false, if_true]
  unfold bookingPreSave
  constructor
  · cases hc : events.contains eventId with
    | true => simp [hc, hok]
    | false => simp [hc]
  · intro hc
    have hmem : eventId ∈ events := by
      rw [← List.elem_iff]
      exact hc
    simp [hc, hok, hmem]

theorem booking_existence_check_witness :
    bookingSave [5] 5 (some ("Foo@Bar.COM".data)) = .ok ⟨5, "foo@bar.com".data⟩ ∧
    bookingSave [5] 7 (some ("Foo@Bar.COM".data)) = .error .eventMissing := by
  constructor
  · exact ((booking_existence_check [5] 5 ("Foo@Bar.COM".data)
      (by decide) (by decide)).2 (by decide)).1
  · exact (booking_existence_check [5] 7 ("Foo@Bar.COM".data)
      (by decide) (by decide)).1.mpr (by decide)

/-- A concrete valid Event submission used by the claim examples. -/
def sampleEvent : EventDoc :=
  { title := some ("Tech Talk: AI & You!".data), slug := none,
    description := some ("A talk".data), overview := some ("Overview".data),
    image := some ("img.png".data), venue := some ("Hall".data),
    location := some ("City".data), date := some ("2024-03-01".data),
    time := some ("14:30".data), mode := some ("in-person".data),
    audience := some ("devs".data), organizer := some ("Org".data),
    agenda := some [("Intro".data), ("QA".data)], tags := some [("ai".data)] }

/-- The same submission with an all-punctuation title. -/
def punctEvent : EventDoc := { sampleEvent with title := some ("!!!".data) }

/-- C9: a title consisting only of characters outside `[a-z0-9\s-]`
slugifies to the empty string, and the pipeline accepts the write, storing
an empty-string slug. -/
theorem empty_slug_not_rejected :
    punctEvent.title = some ("!!!".data) ∧
    ("!!!".data).all (fun c => !(isSlugKept c)) = true ∧
    slugify ("!!!".data) = [] ∧
    (eventSave 0 false punctEvent).isOk = true ∧
    (eventSave 0 false punctEvent).toOption.map EventDoc.slug = some (some []) := by
  exact ⟨rfl, by decide, by decide, by decide, by decide⟩

/-! ### Event pipeline inversion and resave lemmas, and the remaining claims -/

theorem requiredOk_map_trim (v : Option Str) : requiredOk (v.map jsTrim) = hookFieldOk v := by
  cases v <;> simp [requiredOk, hookFieldOk]

theorem hookFieldOk_map_trim (v : Option Str) : hookFieldOk (v.map jsTrim) = hookFieldOk v := by
  cases v <;> simp [hookFieldOk, jsTrim_idem]

theorem hookFieldsOk_trimSetters (d : EventDoc) :
    hookFieldsOk (trimSetters d) = hookFieldsOk d := by
  simp [hookFieldsOk, trimSetters, trimFields, hookFieldOk_map_trim]

theorem eventSchemaValidate_ok {d d' : EventDoc}
    (h : eventSchemaValidate d = .ok d') : d' = d := by
  unfold eventSchemaValidate at h
  split_ifs at h
  exact (Except.ok.inj h).symm

/-- Inversion of a successful Event write: the validated conditions hold
and the result is the trimmed document with the slug, date and time fields
produced by the hook. -/
theorem eventSave_ok_inv {tz : Int} {tm : Bool} {d r : EventDoc}
    (h : eventSave tz tm d = .ok r) :
    hookFieldsOk d = true ∧ listOk d.agenda = true ∧ listOk d.tags = true ∧
    ∃ t hm, jsDateParse tz ((trimFields (trimSetters d)).date.getD []) = some t ∧
      normalizeTime ((trimFields (trimSetters d)).time.getD []) = some hm ∧
      r = { trimFields (trimSetters d) with
            slug := if tm || slugFalsy (trimSetters d).slug
              then some (slugify ((trimFields (trimSetters d)).title.getD []))
              else (trimSetters d).slug,
            date := some (toISOString t), time := some hm } := by
  unfold eventSave at h
  split at h
  · exact absurd h (by simp)
  · rename_i d1 heq
    have hd1 : d1 = trimSetters d := eventSchemaValidate_ok heq
    subst hd1
    have hcond : listOk (trimSetters d).agenda = true ∧
        listOk (trimSetters d).tags = true := by
      unfold eventSchemaValidate at heq
      split_ifs at heq with h1 h2 h3
      exact ⟨h2, h3⟩
    unfold eventPreSave at h
    by_cases hf : hookFieldsOk (trimSetters d) = true
    · rw [if_pos hf] at h
      refine ⟨by rw [← hookFieldsOk_trimSetters]; exact hf, ?_, ?_, ?_⟩
      · have hh := hcond.1
        simpa [trimSetters, trimFields] using hh
      · have hh := hcond.2
        simpa [trimSetters, trimFields] using hh
      · split at h
        · exact absurd h (by simp)
        · rename_i t ht
          split at h
          · exact absurd h (by simp)
          · rename_i hm hhm
            exact ⟨t, hm, ht, hhm, (Except.ok.inj h).symm⟩
    · rw [if_neg hf] at h
      exact absurd h (by simp)

theorem ws_of_ascii {c : Char} (h1 : 33 ≤ c.toNat) (h2 : c.toNat < 160) :
    jsIsWhitespace c = false := by
  simp only [jsIsWhitespace, Bool.or_eq_false_iff, Bool.and_eq_false_iff,
    beq_eq_false_iff_ne, ne_eq, decide_eq_false_iff_not, not_le]
  omega

theorem digitChar_bound (d : Nat) :
    33 ≤ (Nat.digitChar d).toNat ∧ (Nat.digitChar d).toNat < 160 := by
  by_cases h : d < 16
  · interval_cases d <;> decide
  · have e : Nat.digitChar d = '*' := by
      have hne : ∀ k : Nat, k < 16 → d ≠ k := by omega
      unfold Nat.digitChar
      rw [if_neg (hne 0 (by norm_num)), if_neg (hne 1 (by norm_num)),
        if_neg (hne 2 (by norm_num)), if_neg (hne 3 (by norm_num)),
        if_neg (hne 4 (by norm_num)), if_neg (hne 5 (by norm_num)),
        if_neg (hne 6 (by norm_num)), if_neg (hne 7 (by norm_num)),
        if_neg (hne 8 (by norm_num)), if_neg (hne 9 (by norm_num)),
        if_neg (hne 10 (by norm_num)), if_neg (hne 11 (by norm_num)),
        if_neg (hne 12 (by norm_num)), if_neg (hne 13 (by norm_num)),
        if_neg (hne 14 (by norm_num)), if_neg (hne 15 (by norm_num))]
    rw [e]
    decide

theorem digitChar_not_ws_any (d : Nat) : jsIsWhitespace (Nat.digitChar d) = false :=
  ws_of_ascii (digitChar_bound d).1 (digitChar_bound d).2

theorem padNum_not_ws (w n : Nat) : ∀ c ∈ padNum w n, jsIsWhitespace c = false := by
  induction w generalizing n with
  | zero =>
    intro c hc
    simp [padNum] at hc
  | succ w ih =>
    intro c hc
    simp only [padNum, List.mem_cons] at hc
    rcases hc with hc | hc
    · subst hc
      exact digitChar_not_ws_any _
    · exact ih _ c hc

theorem replaceRuns_chars (p : Char → Bool) (r : Char) :
    ∀ (b : Bool) (l : Str) (c : Char), c ∈ replaceRuns p r b l →
      c = r ∨ (c ∈ l ∧ p c = false) := by
  intro b l
  induction l generalizing b with
  | nil =>
    intro c hc
    simp [replaceRuns] at hc
  | cons x xs ih =>
    intro c hc
    unfold replaceRuns at hc
    split_ifs at hc with hx hb
    · rcases ih true c hc with h | ⟨h1, h2⟩
      · exact Or.inl h
      · exact Or.inr ⟨List.mem_cons_of_mem x h1, h2⟩
    · rcases List.mem_cons.mp hc with h | h
      · exact Or.inl h
      · rcases ih true c h with h' | ⟨h1, h2⟩
        · exact Or.inl h'
        · exact Or.inr ⟨List.mem_cons_of_mem x h1, h2⟩
    · rcases List.mem_cons.mp hc with h | h
      · subst h
        exact Or.inr ⟨List.mem_cons_self c xs, by simpa using hx⟩
      · rcases ih false c h with h' | ⟨h1, h2⟩
        · exact Or.inl h'
        · exact Or.inr ⟨List.mem_cons_of_mem x h1, h2⟩

/-- `slugify` output never contains whitespace (every run was replaced). -/
theorem slugify_no_ws (v : Str) : ∀ c ∈ slugify v, jsIsWhitespace c = false := by
  intro c hc
  unfold slugify at hc
  rcases replaceRuns_chars _ '-' false _ c hc with h | ⟨h1, _⟩
  · subst h
    rfl
  · rcases replaceRuns_chars _ '-' false _ c h1 with h | ⟨_, h2⟩
    · subst h
      rfl
    · exact h2

/-- `toISOString` output never contains whitespace. -/
theorem toISOString_no_ws (t : Int) : ∀ c ∈ toISOString t, jsIsWhitespace c = false := by
  intro c hc
  simp only [toISOString, List.mem_append] at hc
  rcases hc with hc | hc
  · split_ifs at hc with h1 h2
    · exact padNum_not_ws 4 _ c hc
    · rcases List.mem_cons.mp hc with h | h
      · subst h
        rfl
      · exact padNum_not_ws 6 _ c h
    · rcases List.mem_cons.mp hc with h | h
      · subst h
        rfl
      · exact padNum_not_ws 6 _ c h
  · simp only [isoTail, List.mem_cons, List.mem_append] at hc
    rcases hc with hc | hc
    · subst hc
      rfl
    rcases hc with hc | hc
    · exact padNum_not_ws 2 _ c hc
    rcases hc with hc | hc
    · subst hc
      rfl
    rcases hc with hc | hc
    · exact padNum_not_ws 2 _ c hc
    rcases hc with hc | hc
    · subst hc
      rfl
    rcases hc with hc | hc
    · exact padNum_not_ws 2 _ c hc
    rcases hc with hc | hc
    · subst hc
      rfl
    rcases hc with hc | hc
    · exact padNum_not_ws 2 _ c hc
    rcases hc with hc | hc
    · subst hc
      rfl
    rcases hc with hc | hc
    · exact padNum_not_ws 2 _ c hc
    rcases hc with hc | hc
    · subst hc
      rfl
    rcases hc with hc | hc
    · exact padNum_not_ws 3 _ c hc
    rcases hc with hc | hc
    · subst hc
      rfl
    · simp at hc

theorem toISOString_ne_nil (t : Int) : toISOString t ≠ [] := by
  simp only [toISOString, isoTail]
  intro h
  rcases List.append_eq_nil.mp h with ⟨_, h2⟩
  simp at h2

theorem map_trim_trim (v : Option Str) : (v.map jsTrim).map jsTrim = v.map jsTrim := by
  cases v <;> simp [jsTrim_idem]

theorem hookFieldOk_some {v : Option Str} (h : hookFieldOk v = true) :
    ∃ s, v = some s ∧ (jsTrim s).isEmpty = false := by
  cases v with
  | none => simp [hookFieldOk] at h
  | some s =>
    refine ⟨s, rfl, ?_⟩
    simpa [hookFieldOk] using h

/-- With all validated conditions true, the schema step is the identity. -/
theorem eventSchemaValidate_pass (d : EventDoc) (hfa : hookFieldsOk d = true)
    (ha : listOk d.agenda = true) (htg : listOk d.tags = true) :
    eventSchemaValidate (trimSetters d) = .ok (trimSetters d) := by
  have hchain : (requiredOk (trimSetters d).title && requiredOk (trimSetters d).description &&
      requiredOk (trimSetters d).overview && requiredOk (trimSetters d).image &&
      requiredOk (trimSetters d).venue && requiredOk (trimSetters d).location &&
      requiredOk (trimSetters d).date && requiredOk (trimSetters d).time &&
      requiredOk (trimSetters d).mode && requiredOk (trimSetters d).audience &&
      requiredOk (trimSetters d).organizer) = true := by
    have : ∀ v : Option Str, requiredOk (v.map jsTrim) = hookFieldOk v :=
      requiredOk_map_trim
    simp only [trimSetters, trimFields] at *
    simp only [hookFieldsOk] at hfa
    simp [this]
    simp only [Bool.and_eq_true] at hfa
    tauto
  have hag : listOk (trimSetters d).agenda = true := by
    simpa [trimSetters, trimFields] using ha
  have htags : listOk (trimSetters d).tags = true := by
    simpa [trimSetters, trimFields] using htg
  unfold eventSchemaValidate
  rw [if_pos hchain, if_pos hag, if_pos htags]

theorem eventSave_eq_preSave (tz : Int) (tm : Bool) (d : EventDoc)
    (hfa : hookFieldsOk d = true) (ha : listOk d.agenda = true)
    (htg : listOk d.tags = true) :
    eventSave tz tm d = eventPreSave tz tm (trimSetters d) := by
  unfold eventSave
  rw [eventSchemaValidate_pass d hfa ha htg]

theorem normalizeTime_shape {s hm : Str} (h : normalizeTime s = some hm) :
    ∃ a b, a < 24 ∧ b < 60 ∧ hm = padNum 2 a ++ ':' :: padNum 2 b := by
  unfold normalizeTime at h
  cases hpc : parseClock (jsTrim s) with
  | none =>
    rw [hpc] at h
    exact absurd h (by simp)
  | some p =>
    obtain ⟨a, b⟩ := p
    rw [hpc] at h
    obtain ⟨h1, h2⟩ := parseClock_bounds hpc
    exact ⟨a, b, h1, h2, (Option.some.inj h).symm⟩

/-- The stored form of `sampleEvent` after a successful write. -/
def sampleSaved : EventDoc :=
  { sampleEvent with
    slug := some ("tech-talk-ai-you".data)
    date := some ("2024-03-01T00:00:00.000Z".data) }

/-- C1: whenever the title changed in the write or the slug is absent, the
stored slug is recomputed from the title by `slugify` (lowercase, trim,
strip characters outside `[a-z0-9\s-]`, whitespace runs to single dashes,
dash runs collapsed); in particular `"Tech Talk: AI & You!"` yields
`"tech-talk-ai-you"`. -/
theorem slug_recomputed_from_title :
    (∀ (tz : Int) (tm : Bool) (d r : EventDoc) (t0 : Str),
        d.title = some t0 → (tm = true ∨ d.slug = none) →
        eventSave tz tm d = .ok r → r.slug = some (slugify t0)) ∧
    slugify ("Tech Talk: AI & You!".data) = "tech-talk-ai-you".data := by
  constructor
  · intro tz tm d r t0 ht hcond h
    obtain ⟨hf, ha, htg, t, hm, hdp, hnt, hr⟩ := eventSave_ok_inv h
    have hslug : r.slug = if tm || slugFalsy (trimSetters d).slug
        then some (slugify ((trimFields (trimSetters d)).title.getD []))
        else (trimSetters d).slug := by rw [hr]
    have htitle2 : (trimFields (trimSetters d)).title = some (jsTrim t0) := by
      simp [trimFields, trimSetters, ht, jsTrim_idem]
    rcases hcond with hc | hc
    · rw [hslug, if_pos (by rw [hc]; rfl), htitle2]
      simp only [Option.getD_some]
      rw [slugify_trim]
    · have hsf : slugFalsy (trimSetters d).slug = true := by
        simp [trimSetters, hc, slugFalsy]
      rw [hslug, if_pos (by rw [hsf, Bool.or_true]), htitle2]
      simp only [Option.getD_some]
      rw [slugify_trim]
  · decide

theorem slug_recomputed_from_title_witness :
    sampleEvent.title = some ("Tech Talk: AI & You!".data) ∧
    sampleEvent.slug = none ∧
    eventSave 0 false sampleEvent = .ok sampleSaved ∧
    sampleSaved.slug = some (slugify ("Tech Talk: AI & You!".data)) ∧
    sampleSaved.slug = some ("tech-talk-ai-you".data) :=
  ⟨rfl, rfl, by decide,
   slug_recomputed_from_title.1 0 false sampleEvent sampleSaved
     ("Tech Talk: AI & You!".data) rfl (Or.inr rfl) (by decide), rfl⟩

/-- C4: an Event write fails when any of the eleven required string fields
is absent or empty after trimming, or when agenda or tags is not a
non-empty list of strings non-empty after trimming; on success the nine
fields not overwritten by normalization are stored trimmed, agenda and
tags are stored as given, and date and time hold the normalization of
their trimmed inputs.  The examples: agenda `[]` and `["", "  "]` are
rejected, `["Intro", "Q&A"]` is accepted. -/
theorem required_fields_validation (tz : Int) (tm : Bool) (d : EventDoc) :
    ((hookFieldsOk d = false ∨ listOk d.agenda = false ∨ listOk d.tags = false) →
      ∃ e, eventSave tz tm d = .error e) ∧
    (∀ r, eventSave tz tm d = .ok r →
      r.title = d.title.map jsTrim ∧ r.description = d.description.map jsTrim ∧
      r.overview = d.overview.map jsTrim ∧ r.image = d.image.map jsTrim ∧
      r.venue = d.venue.map jsTrim ∧ r.location = d.location.map jsTrim ∧
      r.mode = d.mode.map jsTrim ∧ r.audience = d.audience.map jsTrim ∧
      r.organizer = d.organizer.map jsTrim ∧
      r.agenda = d.agenda ∧ r.tags = d.tags ∧
      (∃ ds, d.date = some ds ∧ r.date = normalizeDate tz (jsTrim ds)) ∧
      (∃ ts, d.time = some ts ∧ r.time = normalizeTime (jsTrim ts))) ∧
    listOk (some []) = false ∧ listOk (some [[], "  ".data]) = false ∧
    listOk (some [("Intro".data), ("Q&A".data)]) = true := by
  refine ⟨?_, ?_, by decide, by decide, by decide⟩
  · intro hbad
    cases hs : eventSave tz tm d with
    | error e => exact ⟨e, rfl⟩
    | ok r =>
      obtain ⟨h1, h2, h3, _⟩ := eventSave_ok_inv hs
      rcases hbad with hb | hb | hb <;> simp_all
  · intro r h
    obtain ⟨hf, ha, htg, t, hm, hdp, hnt, hr⟩ := eventSave_ok_inv h
    have hfields := hf
    simp only [hookFieldsOk, Bool.and_eq_true] at hfields
    obtain ⟨⟨⟨⟨⟨⟨⟨⟨⟨⟨q1, q2⟩, q3⟩, q4⟩, q5⟩, q6⟩, q7⟩, q8⟩, q9⟩, q10⟩, q11⟩ := hfields
    subst hr
    refine ⟨map_trim_trim d.title, map_trim_trim d.description,
      map_trim_trim d.overview, map_trim_trim d.image, map_trim_trim d.venue,
      map_trim_trim d.location, map_trim_trim d.mode, map_trim_trim d.audience,
      map_trim_trim d.organizer, rfl, rfl, ?_, ?_⟩
    · obtain ⟨ds, hds, hne⟩ := hookFieldOk_some q7
      refine ⟨ds, hds, ?_⟩
      have hdp' : jsDateParse tz (jsTrim ds) = some t := by
        rw [← jsTrim_idem ds]
        have e : (trimFields (trimSetters d)).date.getD [] = jsTrim (jsTrim ds) := by
          simp [trimFields, trimSetters, hds]
        rw [← e]
        exact hdp
      show some (toISOString t) = normalizeDate tz (jsTrim ds)
      simp [normalizeDate, hdp']
    · obtain ⟨ts, hts, hne⟩ := hookFieldOk_some q8
      refine ⟨ts, hts, ?_⟩
      have hnt' : normalizeTime (jsTrim ts) = some hm := by
        have e : (trimFields (trimSetters d)).time.getD [] = jsTrim (jsTrim ts) := by
          simp [trimFields, trimSetters, hts]
        rw [e] at hnt
        rw [← jsTrim_idem ts]
        exact hnt
      show some hm = normalizeTime (jsTrim ts)
      exact hnt'.symm
  

theorem required_fields_validation_witness :
    (∃ e, eventSave 0 false { sampleEvent with agenda := some [] } = .error e) ∧
    eventSave 0 false sampleEvent = .ok sampleSaved ∧
    sampleSaved.title = sampleEvent.title.map jsTrim ∧
    sampleSaved.agenda = sampleEvent.agenda :=
  ⟨(required_fields_validation 0 false { sampleEvent with agenda := some [] }).1
      (Or.inr (Or.inl (by decide))),
   by decide,
   ((required_fields_validation 0 false sampleEvent).2.1 sampleSaved (by decide)).1,
   ((required_fields_validation 0 false sampleEvent).2.1 sampleSaved
      (by decide)).2.2.2.2.2.2.2.2.2.1⟩

/-- C3: on a write whose other validated conditions hold, the date field is
parsed as a calendar date/time and the write fails with the
invalid-date ValidationError exactly when the trimmed date string is
unparseable; on success the date field holds the canonical ISO timestamp
string of the parse result. -/
theorem date_normalized_or_rejected (tz : Int) (tm : Bool) (d : EventDoc) (ds : Str)
    (hd : d.date = some ds) (hf : hookFieldsOk d = true)
    (ha : listOk d.agenda = true) (htg : listOk d.tags = true) :
    (eventSave tz tm d = .error .dateInvalid ↔ jsDateParse tz (jsTrim ds) = none) ∧
    (∀ r, eventSave tz tm d = .ok r →
      ∃ t, jsDateParse tz (jsTrim ds) = some t ∧ r.date = some (toISOString t)) := by
  rw [eventSave_eq_preSave tz tm d hf ha htg]
  unfold eventPreSave
  have hf' : hookFieldsOk (trimSetters d) = true := by
    rw [hookFieldsOk_trimSetters]
    exact hf
  rw [if_pos hf']
  have hgd : (trimFields (trimSetters d)).date.getD [] = jsTrim ds := by
    simp [trimFields, trimSetters, hd, jsTrim_idem]
  rw [hgd]
  cases hp : jsDateParse tz (jsTrim ds) with
  | none =>
    constructor
    · simp
    · intro r hok
      exact absurd hok (by simp)
  | some t =>
    cases hnt : normalizeTime ((trimFields (trimSetters d)).time.getD []) with
    | none =>
      constructor
      · constructor
        · intro hcontra
          exact absurd hcontra (by simp)
        · intro hcontra
          exact absurd hcontra (by simp)
      · intro r hok
        exact absurd hok (by simp)
    | some hm =>
      constructor
      · constructor
        · intro hcontra
          exact absurd hcontra (by simp)
        · intro hcontra
          exact absurd hcontra (by simp)
      · intro r hok
        refine ⟨t, rfl, ?_⟩
        rw [← Except.ok.inj hok]

theorem date_normalized_or_rejected_witness :
    eventSave 0 false { sampleEvent with date := some ("not-a-date".data) } =
      .error .dateInvalid ∧
    (∃ t, jsDateParse 0 (jsTrim ("2024-03-01".data)) = some t ∧
      sampleSaved.date = some (toISOString t)) :=
  ⟨(date_normalized_or_rejected 0 false
      { sampleEvent with date := some ("not-a-date".data) } ("not-a-date".data)
      rfl (by decide) (by decide) (by decide)).1.mpr (by decide),
   (date_normalized_or_rejected 0 false sampleEvent ("2024-03-01".data)
      rfl (by decide) (by decide) (by decide)).2 sampleSaved (by decide)⟩

/-- C2: on a write whose other validated conditions hold and whose date
parses, the time field is normalized by parsing the trimmed string as a
clock time; the write fails with the invalid-time ValidationError exactly
when it is unparseable, and on success the field holds the zero-padded
24-hour `HH:MM` rendering of the parse. -/
theorem time_normalized_or_rejected (tz : Int) (tm : Bool) (d : EventDoc)
    (ds ts : Str) (hd : d.date = some ds) (htime : d.time = some ts)
    (hf : hookFieldsOk d = true) (ha : listOk d.agenda = true)
    (htg : listOk d.tags = true) (td : Int)
    (hdate : jsDateParse tz (jsTrim ds) = some td) :
    (eventSave tz tm d = .error .timeInvalid ↔ normalizeTime ts = none) ∧
    (∀ r, eventSave tz tm d = .ok r →
      ∃ a b, a < 24 ∧ b < 60 ∧ r.time = some (padNum 2 a ++ ':' :: padNum 2 b) ∧
        normalizeTime ts = some (padNum 2 a ++ ':' :: padNum 2 b)) := by
  rw [eventSave_eq_preSave tz tm d hf ha htg]
  unfold eventPreSave
  have hf' : hookFieldsOk (trimSetters d) = true := by
    rw [hookFieldsOk_trimSetters]
    exact hf
  rw [if_pos hf']
  have hgd : (trimFields (trimSetters d)).date.getD [] = jsTrim ds := by
    simp [trimFields, trimSetters, hd, jsTrim_idem]
  have hgt : (trimFields (trimSetters d)).time.getD [] = jsTrim ts := by
    simp [trimFields, trimSetters, htime, jsTrim_idem]
  have htrim : normalizeTime (jsTrim ts) = normalizeTime ts := by
    unfold normalizeTime
    rw [jsTrim_idem]
  rw [hgd, hdate, hgt, htrim]
  cases hnt : normalizeTime ts with
  | none =>
    constructor
    · simp
    · intro r hok
      exact absurd hok (by simp)
  | some hm =>
    obtain ⟨a, b, hb1, hb2, hhm⟩ := normalizeTime_shape (htrim.trans hnt)
    subst hhm
    constructor
    · constructor
      · intro hcontra
        exact absurd hcontra (by simp)
      · intro hcontra
        exact absurd hcontra (by simp)
    · intro r hok
      refine ⟨a, b, hb1, hb2, ?_, rfl⟩
      rw [← Except.ok.inj hok]

theorem time_normalized_or_rejected_witness :
    eventSave 0 false { sampleEvent with time := some ("not-a-time".data) } =
      .error .timeInvalid ∧
    (∃ a b, a < 24 ∧ b < 60 ∧
      sampleSaved.time = some (padNum 2 a ++ ':' :: padNum 2 b) ∧
      normalizeTime ("14:30".data) = some (padNum 2 a ++ ':' :: padNum 2 b)) ∧
    (∃ a b, a < 24 ∧ b < 60 ∧
      normalizeTime ("9:5 AM".data) = some (padNum 2 a ++ ':' :: padNum 2 b)) := by
  refine ⟨?_, ?_, ?_⟩
  · exact (time_normalized_or_rejected 0 false
      { sampleEvent with time := some ("not-a-time".data) } ("2024-03-01".data)
      ("not-a-time".data) rfl rfl (by decide) (by decide) (by decide)
      1709251200000 (by decide)).1.mpr (by decide)
  · exact (time_normalized_or_rejected 0 false sampleEvent ("2024-03-01".data)
      ("14:30".data) rfl rfl (by decide) (by decide) (by decide)
      1709251200000 (by decide)).2 sampleSaved (by decide)
  · obtain ⟨a, b, h1, h2, _, h4⟩ := (time_normalized_or_rejected 0 false
      { sampleEvent with time := some ("9:5 AM".data) } ("2024-03-01".data)
      ("9:5 AM".data) rfl rfl (by decide) (by decide) (by decide)
      1709251200000 (by decide)).2
      { sampleSaved with time := some ("09:05".data) } (by decide)
    exact ⟨a, b, h1, h2, h4⟩

theorem jsTrim_slugify (v : Str) : jsTrim (slugify v) = slugify v :=
  jsTrim_eq_self (slugify_no_ws v)

theorem jsTrim_toISOString (t : Int) : jsTrim (toISOString t) = toISOString t :=
  jsTrim_eq_self (toISOString_no_ws t)

/-- C8: committing a stored Event again with the title unmodified succeeds
and reproduces the document exactly, in particular the slug: derivation is
idempotent and the slug can only change when the title changes or the slug
was absent. -/
theorem slug_derivation_idempotent (tz tz' : Int) (tm : Bool) (d r : EventDoc)
    (h : eventSave tz tm d = .ok r) :
    eventSave tz' false r = .ok r ∧
    (eventSave tz' false r).toOption.map EventDoc.slug = some r.slug := by
  obtain ⟨hf, ha, htg, t, hm, hdp, hnt, hr⟩ := eventSave_ok_inv h
  obtain ⟨b1, b2⟩ := jsDateParse_bounds hdp
  obtain ⟨a, b, hb1, hb2, hhm⟩ := normalizeTime_shape hnt
  subst hhm
  have hfx := hf
  simp only [hookFieldsOk, Bool.and_eq_true] at hfx
  obtain ⟨⟨⟨⟨⟨⟨⟨⟨⟨⟨q1, q2⟩, q3⟩, q4⟩, q5⟩, q6⟩, q7⟩, q8⟩, q9⟩, q10⟩, q11⟩ := hfx
  obtain ⟨s1, e1, n1⟩ := hookFieldOk_some q1
  obtain ⟨s2, e2, n2⟩ := hookFieldOk_some q2
  obtain ⟨s3, e3, n3⟩ := hookFieldOk_some q3
  obtain ⟨s4, e4, n4⟩ := hookFieldOk_some q4
  obtain ⟨s5, e5, n5⟩ := hookFieldOk_some q5
  obtain ⟨s6, e6, n6⟩ := hookFieldOk_some q6
  obtain ⟨s9, e9, n9⟩ := hookFieldOk_some q9
  obtain ⟨s10, e10, n10⟩ := hookFieldOk_some q10
  obtain ⟨s11, e11, n11⟩ := hookFieldOk_some q11
  have hfr : hookFieldsOk r = true := by
    rw [hr]
    simp only [hookFieldsOk, Bool.and_eq_true]
    refine ⟨⟨⟨⟨⟨⟨⟨⟨⟨⟨?_, ?_⟩, ?_⟩, ?_⟩, ?_⟩, ?_⟩, ?_⟩, ?_⟩, ?_⟩, ?_⟩, ?_⟩
    · simp [trimFields, trimSetters, e1, hookFieldOk, jsTrim_idem, n1]
    · simp [trimFields, trimSetters, e2, hookFieldOk, jsTrim_idem, n2]
    · simp [trimFields, trimSetters, e3, hookFieldOk, jsTrim_idem, n3]
    · simp [trimFields, trimSetters, e4, hookFieldOk, jsTrim_idem, n4]
    · simp [trimFields, trimSetters, e5, hookFieldOk, jsTrim_idem, n5]
    · simp [trimFields, trimSetters, e6, hookFieldOk, jsTrim_idem, n6]
    · show hookFieldOk (some (toISOString t)) = true
      simp only [hookFieldOk]
      rw [jsTrim_toISOString]
      cases he : toISOString t with
      | nil => exact absurd he (toISOString_ne_nil t)
      | cons c cs => rfl
    · show hookFieldOk (some (padNum 2 a ++ ':' :: padNum 2 b)) = true
      simp only [hookFieldOk]
      rw [jsTrim_eq_self (hm_str_no_ws a b (by omega) (by omega))]
      rfl
    · simp [trimFields, trimSetters, e9, hookFieldOk, jsTrim_idem, n9]
    · simp [trimFields, trimSetters, e10, hookFieldOk, jsTrim_idem, n10]
    · simp [trimFields, trimSetters, e11, hookFieldOk, jsTrim_idem, n11]
  have har : listOk r.agenda = true := by
    rw [hr]
    exact ha
  have htgr : listOk r.tags = true := by
    rw [hr]
    exact htg
  have main : eventSave tz' false r = .ok r := by
    rw [eventSave_eq_preSave tz' false r hfr har htgr]
    unfold eventPreSave
    rw [if_pos (show hookFieldsOk (trimSetters r) = true from by
      rw [hookFieldsOk_trimSetters]
      exact hfr)]
    have hgd : (trimFields (trimSetters r)).date.getD [] = toISOString t := by
      rw [hr]
      simp [trimFields, trimSetters, jsTrim_toISOString]
    have hgt : (trimFields (trimSetters r)).time.getD [] =
        padNum 2 a ++ ':' :: padNum 2 b := by
      rw [hr]
      simp [trimFields, trimSetters,
        jsTrim_eq_self (hm_str_no_ws a b (by omega) (by omega))]
    rw [hgd, jsDateParse_toISOString tz' t b1 b2, hgt, normalizeTime_idem _ _ hnt]
    simp only [Except.ok.injEq]
    by_cases hcs : (tm || slugFalsy (trimSetters d).slug) = true
    · rw [if_pos hcs] at hr
      rw [hr]
      simp [trimFields, trimSetters, e1, e2, e3, e4, e5, e6, e9, e10, e11,
        jsTrim_idem, jsTrim_slugify, jsTrim_toISOString,
        jsTrim_eq_self (hm_str_no_ws a b (by omega) (by omega)),
        slugFalsy, Bool.false_or, ite_self, EventDoc.mk.injEq]
    · have hsf : slugFalsy (trimSetters d).slug = false := by
        cases hx : slugFalsy (trimSetters d).slug
        · rfl
        · rw [hx, Bool.or_true] at hcs
          exact absurd rfl hcs
      obtain ⟨sl, hsl⟩ : ∃ sl, d.slug = some sl := by
        cases hds : d.slug with
        | none =>
          rw [show (trimSetters d).slug = d.slug.map jsTrim from rfl, hds] at hsf
          exact absurd hsf (by simp [slugFalsy])
        | some sl => exact ⟨sl, rfl⟩
      have hslne : (jsTrim sl).isEmpty = false := by
        rw [show (trimSetters d).slug = d.slug.map jsTrim from rfl, hsl] at hsf
        simpa [slugFalsy] using hsf
      rw [if_neg hcs] at hr
      rw [hr]
      simp [trimFields, trimSetters, e1, e2, e3, e4, e5, e6, e9, e10, e11, hsl,
        hslne, jsTrim_idem, jsTrim_slugify, jsTrim_toISOString,
        jsTrim_eq_self (hm_str_no_ws a b (by omega) (by omega)),
        slugFalsy, Bool.false_or, EventDoc.mk.injEq]
  refine ⟨main, ?_⟩
  rw [main]
  rfl

theorem slug_derivation_idempotent_witness :
    eventSave 0 false sampleSaved = .ok sampleSaved ∧
    (eventSave 0 false sampleSaved).toOption.map EventDoc.slug =
      some sampleSaved.slug :=
  slug_derivation_idempotent 0 0 false sampleEvent sampleSaved (by decide)

end DevEvents
